import Mathlib

/-!
Verification of the CO-Project RISC-V toolchain (Assembler.py and Simulator.py).

The Python sources are shallowly embedded below.  Binary digit strings are
modelled as `List Char` (MSB first, exactly as the Python code manipulates
strings), machine integers as `Nat`/`Int` with explicit reductions modulo
`2 ^ 32` wherever the Python code masks with `0xffffffff` (Python integers
are unbounded, so a mask is the only place truncation happens).
-/

namespace CO

/-- Numeric value of one binary digit character (`'1'` counts as 1,
anything else as 0, matching what `int(s, 2)` does on the digits the
assembler emits). -/
def charVal (c : Char) : Nat := if c = '1' then 1 else 0

/-- Value of an MSB-first binary digit string; this is `int(s, 2)` for a
string of plain `0`/`1` digits. -/
def binToNat (s : List Char) : Nat := s.foldl (fun acc c => 2 * acc + charVal c) 0

/-- Fuel-driven core of `bin(n)[2:]` for nonnegative `n`: digits of `n`
in base two, MSB first, empty for 0.  The fuel is only there to make the
recursion structural; `fuel = n` always suffices. -/
def binRepAux : Nat → Nat → List Char
  | 0, _ => []
  | fuel + 1, n =>
    if n = 0 then []
    else binRepAux fuel (n / 2) ++ [if n % 2 = 1 then '1' else '0']

/-- Python `bin(n)[2:]` for a nonnegative integer `n` (gives `"0"` for 0). -/
def binRep (n : Nat) : List Char := if n = 0 then ['0'] else binRepAux n n

/-- Python `str.zfill(b)`: left-pad with `'0'` to length `b` (no-op when
the string is already at least that long). -/
def zfill (b : Nat) (s : List Char) : List Char :=
  List.replicate (b - s.length) '0' ++ s

/-- `Binary_convertor(a, b)` from Assembler.py lines 3-17: range-check the
value against signed 32-bit bounds (fatal — modelled as `none` — when out of
range), convert negatives via `(1 << b) + a`, then zero-fill to `b` digits. -/
def Binary_convertor (a : Int) (b : Nat) : Option (List Char) :=
  if ¬(-2147483648 ≤ a ∧ a ≤ 2147483647) then none
  else
    let n : Nat := if a < 0 then ((2 ^ b : Int) + a).toNat else a.toNat
    some (zfill b (binRep n))

/-- Decoding a 32-character binary string as two's complement, exactly as
claim C1 words it: interpret as unsigned, subtract `2 ^ 32` when the sign
bit is set (for a 32-digit string the sign bit is set iff the unsigned
value is at least `2 ^ 31`).  This is the sign-extension idiom the
simulator applies, e.g. Simulator.py lines 119-125. -/
def decodeSigned (s : List Char) : Int :=
  let u := binToNat s
  if 2 ^ 31 ≤ u then (u : Int) - 2 ^ 32 else u

/-! ### Python negative-index slicing on digit strings

`b_type` in Assembler.py slices the 32-digit string `binr` with negative
indices: `binr[-a:-b]` and `binr[-a]`.  For `1 ≤ b < a ≤ len(s)` Python
`s[-a:-b]` is the contiguous run starting `a` from the end, of length
`a - b`; `s[-a]` is the single character `a` from the end. -/

def pySliceNeg (s : List Char) (a b : Nat) : List Char :=
  (s.drop (s.length - a)).take (a - b)

def pyIdxNeg (s : List Char) (a : Nat) : Char :=
  (s.drop (s.length - a)).headD '0'

/-! ### The register name table (Assembler.py lines 21-86)

`reg_add` returns the 5-bit encoding of a recognised register name and
falls off the end (printing "error : invalid register" and implicitly
returning `None`) for any other name — modelled as `none`. -/

def reg_add (register : List Char) : Option (List Char) :=
  if register = "zero".toList then Binary_convertor 0 5
  else if register = "ra".toList then Binary_convertor 1 5
  else if register = "sp".toList then Binary_convertor 2 5
  else if register = "gp".toList then Binary_convertor 3 5
  else if register = "tp".toList then Binary_convertor 4 5
  else if register = "t0".toList then Binary_convertor 5 5
  else if register = "t1".toList then Binary_convertor 6 5
  else if register = "t2".toList then Binary_convertor 7 5
  else if register = "s0".toList ∨ register = "fp".toList then Binary_convertor 8 5
  else if register = "s1".toList then Binary_convertor 9 5
  else if register = "a0".toList then Binary_convertor 10 5
  else if register = "a1".toList then Binary_convertor 11 5
  else if register = "a2".toList then Binary_convertor 12 5
  else if register = "a3".toList then Binary_convertor 13 5
  else if register = "a4".toList then Binary_convertor 14 5
  else if register = "a5".toList then Binary_convertor 15 5
  else if register = "a6".toList then Binary_convertor 16 5
  else if register = "a7".toList then Binary_convertor 17 5
  else if register = "s2".toList then Binary_convertor 18 5
  else if register = "s3".toList then Binary_convertor 19 5
  else if register = "s4".toList then Binary_convertor 20 5
  else if register = "s5".toList then Binary_convertor 21 5
  else if register = "s6".toList then Binary_convertor 22 5
  else if register = "s7".toList then Binary_convertor 23 5
  else if register = "s8".toList then Binary_convertor 24 5
  else if register = "s9".toList then Binary_convertor 25 5
  else if register = "s10".toList then Binary_convertor 26 5
  else if register = "s11".toList then Binary_convertor 27 5
  else if register = "t3".toList then Binary_convertor 28 5
  else if register = "t4".toList then Binary_convertor 29 5
  else if register = "t5".toList then Binary_convertor 30 5
  else if register = "t6".toList then Binary_convertor 31 5
  else none

/-- The 32 canonical register names plus the `fp` alias of `s0`
(spec section 4.2). -/
def canonicalRegNames : List (List Char) :=
  ["zero".toList, "ra".toList, "sp".toList, "gp".toList, "tp".toList,
   "t0".toList, "t1".toList, "t2".toList, "s0".toList, "fp".toList,
   "s1".toList, "a0".toList, "a1".toList, "a2".toList, "a3".toList,
   "a4".toList, "a5".toList, "a6".toList, "a7".toList, "s2".toList,
   "s3".toList, "s4".toList, "s5".toList, "s6".toList, "s7".toList,
   "s8".toList, "s9".toList, "s10".toList, "s11".toList, "t3".toList,
   "t4".toList, "t5".toList, "t6".toList]

/-! ### The B-type encoder (Assembler.py lines 217-314)

The six branch arms (`beq`/`bne`/`blt`/`bge`/`bltu`/`bgeu`) are verbatim
copies of one another except for the funct3 constant, so they are
modelled by one arm parametrised over those three digits.  The label
try/except at the head of every arm is modelled separately
(`resolve_target` below), so `b_arm` receives the already-resolved
integer target. -/

def b_arm (funct3 : List Char) (r1 r2 : List Char) (target : Int) :
    Option (List (List Char)) :=
  match reg_add r1, reg_add r2, Binary_convertor target 32 with
  | some rs1, some rs2, some binr =>
    some [['1','1','0','0','0','1','1'],
          pySliceNeg binr 5 1 ++ [pyIdxNeg binr 12],
          funct3,
          rs1,
          rs2,
          pyIdxNeg binr 13 :: pySliceNeg binr 11 5]
  | _, _, _ => none

/-- `Switch_case` (Assembler.py lines 396-403) pops the field list from
its tail while concatenating, so the emitted line is the reverse
concatenation of the fields. -/
def emitFields (ans : List (List Char)) : List Char :=
  (ans.reverse).foldl (fun s l => s ++ l) []

/-! ### The simulator (Simulator.py)

Python integers are unbounded, so `x & 0xffffffff` is `x mod 2 ^ 32`
(also for negative `x`, by two's-complement bitwise semantics), and for
a mask `m` without high bits, `x & m = (x mod 2 ^ 32) & m`.  Bitwise
`|`/`&` of two possibly negative Python integers followed by the 32-bit
mask equals the Nat-level operation on the operands reduced mod `2 ^ 32`
(truncation commutes with pointwise bit operations). -/

/-- Python `x & 0xffffffff` on an unbounded integer. -/
def mask32 (x : Int) : Int := x % 4294967296

/-- Same truncation, landing in `Nat` for bitwise work. -/
def toU32 (x : Int) : Nat := (x % 4294967296).toNat

/-- The simulator's signed reinterpretation idiom
`(x & 0xffffffff ^ 0x80000000) - 0x80000000` (Simulator.py lines
119-125 and 207-210). -/
def signed32 (x : Int) : Int := ((toU32 x ^^^ 0x80000000 : Nat) : Int) - 0x80000000

/-- Decode fields, Simulator.py lines 76-81. -/
def getOpcode (instruction : Nat) : Nat := instruction &&& 0x7f

def getRd (instruction : Nat) : Nat := (instruction >>> 7) &&& 0x1f

def getFunct3 (instruction : Nat) : Nat := (instruction >>> 12) &&& 0x7

def getRs1 (instruction : Nat) : Nat := (instruction >>> 15) &&& 0x1f

def getRs2 (instruction : Nat) : Nat := (instruction >>> 20) &&& 0x1f

def getFunct7 (instruction : Nat) : Nat := (instruction >>> 25) &&& 0x7f

/-- `imm_i` (Simulator.py lines 83-87).  Note that in Python the result
of `imm_12 |= 0xfffff000` is a *nonnegative* integer carrying the 32-bit
two's-complement pattern, so the model returns `Nat`. -/
def imm_i (instruction : Nat) : Nat :=
  let imm_12 := (instruction >>> 20) &&& 0xfff
  if imm_12 &&& 0x800 ≠ 0 then imm_12 ||| 0xfffff000 else imm_12

/-- `imm_b` (Simulator.py lines 89-97). -/
def imm_b (instruction : Nat) : Nat :=
  let imm_12 := (instruction >>> 31) &&& 0x1
  let imm_10_5 := (instruction >>> 25) &&& 0x3f
  let imm_4_1 := (instruction >>> 8) &&& 0xf
  let imm_11 := (instruction >>> 7) &&& 0x1
  let val := (imm_12 <<< 12) ||| (imm_11 <<< 11) ||| (imm_10_5 <<< 5) ||| (imm_4_1 <<< 1)
  if val &&& 0x1000 ≠ 0 then val ||| 0xffffe000 else val

/-- `imm_j` (Simulator.py lines 99-107). -/
def imm_j (instruction : Nat) : Nat :=
  let imm_20 := (instruction >>> 31) &&& 0x1
  let imm_19_12 := (instruction >>> 12) &&& 0xff
  let imm_11 := (instruction >>> 20) &&& 0x1
  let imm_10_1 := (instruction >>> 21) &&& 0x3ff
  let val := (imm_20 <<< 20) ||| (imm_19_12 <<< 12) ||| (imm_11 <<< 11) ||| (imm_10_1 <<< 1)
  if val &&& 0x100000 ≠ 0 then val ||| 0xffe00000 else val

/-- The simulator state (`RISCVSimulator.__init__`): a 32-word memory, 32
registers, the word-indexed program counter and the halt flag.  Values
are Python integers, hence `Int`. -/
structure SimState where
  memory : List Int
  registers : List Int
  pc : Int
  halted : Bool
deriving DecidableEq, Repr

/-- The fresh simulator state. -/
def initState : SimState :=
  { memory := List.replicate 32 0, registers := List.replicate 32 0,
    pc := 0, halted := false }

/-- The `self.registers[0] = 0` fall-through at Simulator.py line 237,
executed on every path of `execute_instruction` except the early
`return True` of the halt branch. -/
def x0_reset (s : SimState) : SimState :=
  { s with registers := s.registers.set 0 0 }

/-- The store immediate of the S-type branch (Simulator.py lines
181-185), sign-extended the same way as `imm_i`. -/
def imm_s (instruction : Nat) : Nat :=
  let imm_11_5 := (instruction >>> 25) &&& 0x7f
  let imm_4_0 := (instruction >>> 7) &&& 0x1f
  let imm0 := (imm_11_5 <<< 5) ||| imm_4_0
  if imm0 &&& 0x800 ≠ 0 then imm0 ||| 0xfffff000 else imm0

/-! Each successful branch body of `execute_instruction` is named
`step_<mnemonic>`; the dispatch tree below mirrors the `if`/`elif` chain
of Simulator.py lines 109-238.  The Python `pc` increments written after
each chain are folded into the branch bodies. -/

def step_add (s : SimState) (instruction : Nat) : SimState :=
  x0_reset { s with
    registers := s.registers.set (getRd instruction)
      (mask32 (s.registers.getD (getRs1 instruction) 0
        + s.registers.getD (getRs2 instruction) 0)),
    pc := s.pc + 1 }

def step_sub (s : SimState) (instruction : Nat) : SimState :=
  x0_reset { s with
    registers := s.registers.set (getRd instruction)
      (mask32 (s.registers.getD (getRs1 instruction) 0
        - s.registers.getD (getRs2 instruction) 0)),
    pc := s.pc + 1 }

def step_slt (s : SimState) (instruction : Nat) : SimState :=
  x0_reset { s with
    registers := s.registers.set (getRd instruction)
      (if signed32 (s.registers.getD (getRs1 instruction) 0)
          < signed32 (s.registers.getD (getRs2 instruction) 0)
       then 1 else 0),
    pc := s.pc + 1 }

/-- SRL; the shift amount is `registers[rs2] & 0x1f`. -/
def step_srl (s : SimState) (instruction : Nat) : SimState :=
  x0_reset { s with
    registers := s.registers.set (getRd instruction)
      ((toU32 (s.registers.getD (getRs1 instruction) 0)
        >>> ((s.registers.getD (getRs2 instruction) 0) % 32).toNat : Nat) : Int),
    pc := s.pc + 1 }

def step_or (s : SimState) (instruction : Nat) : SimState :=
  x0_reset { s with
    registers := s.registers.set (getRd instruction)
      ((toU32 (s.registers.getD (getRs1 instruction) 0)
        ||| toU32 (s.registers.getD (getRs2 instruction) 0) : Nat) : Int),
    pc := s.pc + 1 }

def step_and (s : SimState) (instruction : Nat) : SimState :=
  x0_reset { s with
    registers := s.registers.set (getRd instruction)
      ((toU32 (s.registers.getD (getRs1 instruction) 0)
        &&& toU32 (s.registers.getD (getRs2 instruction) 0) : Nat) : Int),
    pc := s.pc + 1 }

def step_addi (s : SimState) (instruction : Nat) : SimState :=
  x0_reset { s with
    registers := s.registers.set (getRd instruction)
      (mask32 (s.registers.getD (getRs1 instruction) 0 + (imm_i instruction : Int))),
    pc := s.pc + 1 }

/-- `mem_idx = addr // 4` for LW, with `addr = (registers[rs1] + imm) &
0xffffffff`. -/
def lw_idx (s : SimState) (instruction : Nat) : Int :=
  mask32 (s.registers.getD (getRs1 instruction) 0 + (imm_i instruction : Int)) / 4

def step_lw (s : SimState) (instruction : Nat) : SimState :=
  x0_reset { s with
    registers := s.registers.set (getRd instruction)
      (s.memory.getD (lw_idx s instruction).toNat 0),
    pc := s.pc + 1 }

/-- `jump_word = target // 4` for JALR, with
`target = (registers[rs1] + imm) & 0xfffffffe`. -/
def jalr_word (s : SimState) (instruction : Nat) : Nat :=
  (toU32 (s.registers.getD (getRs1 instruction) 0 + (imm_i instruction : Int))
    &&& 0xfffffffe) / 4

/-- The `registers[rd] = pc + 1` write JALR performs *before* its bound
check (claim C10). -/
def jalr_link (s : SimState) (instruction : Nat) : SimState :=
  { s with registers := s.registers.set (getRd instruction) (s.pc + 1) }

def step_jalr (s : SimState) (instruction : Nat) : SimState :=
  x0_reset { jalr_link s instruction with pc := (jalr_word s instruction : Int) }

/-- `mem_idx = addr // 4` for SW. -/
def sw_idx (s : SimState) (instruction : Nat) : Int :=
  mask32 (s.registers.getD (getRs1 instruction) 0 + (imm_s instruction : Int)) / 4

def step_sw (s : SimState) (instruction : Nat) : SimState :=
  x0_reset { s with
    memory := s.memory.set (sw_idx s instruction).toNat
      (mask32 (s.registers.getD (getRs2 instruction) 0)),
    pc := s.pc + 1 }

def step_beq (s : SimState) (instruction : Nat) : SimState :=
  x0_reset { s with
    pc := if s.registers.getD (getRs1 instruction) 0
             = s.registers.getD (getRs2 instruction) 0
          then s.pc + ((imm_b instruction / 4 : Nat) : Int) else s.pc + 1 }

def step_bne (s : SimState) (instruction : Nat) : SimState :=
  x0_reset { s with
    pc := if s.registers.getD (getRs1 instruction) 0
             ≠ s.registers.getD (getRs2 instruction) 0
          then s.pc + ((imm_b instruction / 4 : Nat) : Int) else s.pc + 1 }

def step_jal (s : SimState) (instruction : Nat) : SimState :=
  x0_reset { s with
    registers := s.registers.set (getRd instruction) (s.pc + 1),
    pc := s.pc + ((imm_j instruction / 4 : Nat) : Int) }

/-- The virtual-halt branch: sets the flag and returns early, so neither
the PC nor any register changes (the x0 reset is skipped too). -/
def step_halt (s : SimState) : SimState :=
  { s with halted := true }

/-- `execute_instruction` (Simulator.py lines 75-238).  The Python method
mutates `self` and returns `True`/`False`; the model returns the mutated
state together with that Boolean, so that partially-mutated states on
error paths (jalr, claim C10) are preserved. -/
def execute_instruction (s : SimState) (instruction : Nat) : SimState × Bool :=
  if getOpcode instruction = 0x33 then
    -- R-type
    if getFunct3 instruction = 0x0 then
      if getFunct7 instruction = 0x00 then (step_add s instruction, true)
      else if getFunct7 instruction = 0x20 then (step_sub s instruction, true)
      else (s, false)
    else if getFunct3 instruction = 0x2 then (step_slt s instruction, true)
    else if getFunct3 instruction = 0x5 then
      if getFunct7 instruction = 0x00 then (step_srl s instruction, true)
      else (s, false)
    else if getFunct3 instruction = 0x6 then (step_or s instruction, true)
    else if getFunct3 instruction = 0x7 then (step_and s instruction, true)
    else (s, false)
  else if getOpcode instruction = 0x13 then
    if getFunct3 instruction = 0x0 then (step_addi s instruction, true)
    else (s, false)
  else if getOpcode instruction = 0x03 then
    -- LW
    if getFunct3 instruction = 0x2 then
      if lw_idx s instruction < 0 ∨ 32 ≤ lw_idx s instruction then (s, false)
      else (step_lw s instruction, true)
    else (s, false)
  else if getOpcode instruction = 0x67 then
    -- JALR: the rd link write happens before the bound check
    if (jalr_word s instruction : Int) < 0 ∨ 32 ≤ jalr_word s instruction
    then (jalr_link s instruction, false)
    else (step_jalr s instruction, true)
  else if getOpcode instruction = 0x23 then
    -- SW
    if getFunct3 instruction = 0x2 then
      if sw_idx s instruction < 0 ∨ 32 ≤ sw_idx s instruction then (s, false)
      else (step_sw s instruction, true)
    else (s, false)
  else if getOpcode instruction = 0x63 then
    -- B-type; the signed values s1/s2 the Python code computes are
    -- unused for the implemented beq/bne comparisons
    if getFunct3 instruction = 0x0 ∧ getRs1 instruction = 0 ∧ getRs2 instruction = 0
       ∧ imm_b instruction = 0 then
      (step_halt s, true)
    else if getFunct3 instruction = 0x0 then (step_beq s instruction, true)
    else if getFunct3 instruction = 0x1 then (step_bne s instruction, true)
    else (s, false)
  else if getOpcode instruction = 0x6f then (step_jal s instruction, true)
  else (s, false)

/-- One trace line (`write_trace_line`, Simulator.py lines 240-247): the
byte-valued PC then all 32 registers, each as a 32-digit binary string,
space separated.  The PC is nonnegative whenever this is called from the
execution loop. -/
def write_trace_line (s : SimState) : List Char :=
  zfill 32 (binRep (s.pc * 4).toNat)
    ++ (s.registers.map (fun r => zfill 32 (binRep (toU32 r)))).foldl
         (fun acc rb => acc ++ [' '] ++ rb) []

/-- The final memory dump (`write_memory_dump`, Simulator.py lines
249-254): one 32-digit line per memory word, in index order. -/
def write_memory_dump (s : SimState) : List (List Char) :=
  s.memory.map (fun word => zfill 32 (binRep (toU32 word)))

/-- `self.max_instructions` (Simulator.py line 15). -/
def max_instructions : Nat := 100000

/-- The fetch-execute loop of `execute_program` (Simulator.py lines
44-70), entered with the running instruction count and the trace lines
written so far.  `none` models a `return False` (fatal); `some` carries
the final state and the complete output, dump included.  The recursion is
structural in the remaining instruction budget, which is exactly why the
Python loop terminates (claim C7). -/
def execute_program_from (s : SimState) (instr_count : Nat)
    (out : List (List Char)) : Option (SimState × List (List Char)) :=
  if h : s.halted = false ∧ instr_count < max_instructions then
    if s.pc < 0 ∨ 32 ≤ s.pc then none
    else
      let instruction := toU32 (s.memory.getD s.pc.toNat 0)
      match execute_instruction s instruction with
      | (s2, true) =>
        execute_program_from s2 (instr_count + 1) (out ++ [write_trace_line s])
      | (_, false) => none
  else
    if max_instructions ≤ instr_count then none
    else some (s, out ++ write_memory_dump s)
termination_by max_instructions - instr_count
decreasing_by
  have := h.2
  omega

/-! ### Python `int()` parsing

`load_program` accepts a line iff `int(line, 2)` does, and the branch
arms classify an operand as a literal iff `int(token)` does.  CPython's
grammar is: optional surrounding whitespace, an optional sign, for base 2
an optional `0b`/`0B` prefix (which may be followed by one underscore),
then a nonempty digit run in which single underscores may separate
digits. -/

def isPySpace (c : Char) : Bool :=
  c = ' ' ∨ c = '\t' ∨ c = '\n' ∨ c = '\r' ∨ c = '\x0b' ∨ c = '\x0c'

/-- Python `str.strip()`. -/
def stripChars (s : List Char) : List Char :=
  ((s.dropWhile isPySpace).reverse.dropWhile isPySpace).reverse

def isBit (c : Char) : Bool := c = '0' ∨ c = '1'

def isDigit10 (c : Char) : Bool := '0' ≤ c ∧ c ≤ '9'

/-- Tail of a digit run: every underscore must be followed by a digit. -/
def digitRunAux (isD : Char → Bool) : List Char → Bool
  | [] => true
  | '_' :: c :: rest => isD c && digitRunAux isD rest
  | ['_'] => false
  | c :: rest => isD c && digitRunAux isD rest

/-- A nonempty digit run with single underscores strictly between digits. -/
def digitRun (isD : Char → Bool) : List Char → Bool
  | [] => false
  | c :: rest => isD c && digitRunAux isD rest

/-- Sign splitting shared by both parsers. -/
def pySign : List Char → Int × List Char
  | '-' :: rest => (-1, rest)
  | '+' :: rest => (1, rest)
  | t => (1, t)

/-- Python `int(s, 2)`. -/
def pyInt2 (s : List Char) : Option Int :=
  let p := pySign (stripChars s)
  let t1 :=
    match p.2 with
    | '0' :: 'b' :: rest => some (match rest with | '_' :: r2 => r2 | _ => rest)
    | '0' :: 'B' :: rest => some (match rest with | '_' :: r2 => r2 | _ => rest)
    | t => some t
  match t1 with
  | some t2 =>
    if digitRun isBit t2
    then some (p.1 * (binToNat (t2.filter (fun c => c ≠ '_')) : Int))
    else none
  | none => none

/-- Decimal digit-string value, underscores already removed. -/
def decVal (l : List Char) : Nat :=
  l.foldl (fun acc c => 10 * acc + (c.toNat - 48)) 0

/-- Python `int(s)` (base 10), used by the `try: int(data[3])` in the
branch/jump arms to classify an operand as a literal. -/
def pyIntLit (s : List Char) : Option Int :=
  let p := pySign (stripChars s)
  if digitRun isDigit10 p.2
  then some (p.1 * (decVal (p.2.filter (fun c => c ≠ '_')) : Int))
  else none

/-! ### `load_program` (Simulator.py lines 17-42) -/

def load_program_aux : List (List Char) → Nat → List Int → Option (List Int)
  | [], _, memory => some memory
  | line :: rest, i, memory =>
    let l := stripChars line
    if l = [] then load_program_aux rest i memory
    else if l.length ≠ 32 then none
    else if 32 ≤ i then none
    else
      match pyInt2 l with
      | none => none
      | some val => load_program_aux rest (i + 1) (memory.set i val)

/-- `load_program`: read the binary image lines into the zero-initialised
32-word memory; `none` models every `return False` path. -/
def load_program (lines : List (List Char)) : Option (List Int) :=
  load_program_aux lines 0 (List.replicate 32 0)

/-! ### The label resolver (Assembler.py lines 414-430) and the
branch/jump target resolution (the try/except at the head of each
`b_type`/`j_type` arm) -/

/-- `label_dict[label] = i` is modelled by consing, and `dict.get` by
taking the most recent binding, so re-declaring a label overwrites
(last-write-wins, spec section 4.3). -/
def dict_get (d : List (List Char × Int)) (k : List Char) : Option Int :=
  match d.find? (fun p => p.1 = k) with
  | some p => some p.2
  | none => none

/-- `b.split(':', 1)[0]`: everything before the first colon. -/
def splitColon1Label (b : List Char) : List Char :=
  b.takeWhile (fun c => c ≠ ':')

/-- Pass 1 (Assembler.py lines 416-429): `i` starts at `-1`, blank lines
are skipped without touching `i`, every other line gets the next index,
and a line containing `':'` records its stripped label at that index. -/
def pass1 : List (List Char) → Int → List (List Char × Int) → List (List Char × Int)
  | [], _, d => d
  | b :: rest, i, d =>
    if stripChars b = [] then pass1 rest i d
    else
      if b.contains ':' then
        pass1 rest (i + 1) ((stripChars (splitColon1Label b), i + 1) :: d)
      else pass1 rest (i + 1) d

def label_dict (lines : List (List Char)) : List (List Char × Int) :=
  pass1 lines (-1) []

/-- The try/except shared by every `b_type`/`j_type` arm: a token that
parses as a Python int literal is used directly, anything else is looked
up as a label and turned into `(labelIndex - i) * 4`; a missing label is
fatal (Python raises on `None - i`). -/
def resolve_target (dict : List (List Char × Int)) (tok : List Char) (i : Int) :
    Option Int :=
  match pyIntLit tok with
  | some v => some v
  | none =>
    match dict_get dict tok with
    | some labelIndex => some ((labelIndex - i) * 4)
    | none => none

/-- funct3 table of the six branch mnemonics (Assembler.py lines 217-314). -/
def branch_funct3 (m : List Char) : Option (List Char) :=
  if m = "beq".toList then some ['0','0','0']
  else if m = "bne".toList then some ['0','0','1']
  else if m = "blt".toList then some ['1','0','0']
  else if m = "bge".toList then some ['1','0','1']
  else if m = "bltu".toList then some ['1','1','0']
  else if m = "bgeu".toList then some ['1','1','1']
  else none

/-- The whole of `b_type`: dispatch on the mnemonic, resolve the target
operand, encode. -/
def b_type (data : List (List Char)) (i : Int)
    (dict : List (List Char × Int)) : Option (List (List Char)) :=
  match data with
  | mnemonic :: r1 :: r2 :: tok :: _ =>
    match branch_funct3 mnemonic, resolve_target dict tok i with
    | some f3, some target => b_arm f3 r1 r2 target
    | _, _ => none
  | _ => none

/-- C3 counterexample input: a state whose first memory word is the halt
instruction `beq zero, zero, 0` (word 99 = 0x63). -/
def haltProgState : SimState :=
  { initState with memory := (99 : Int) :: List.replicate 31 0 }

/-- A 32-character line that is *not* made of `0`/`1` digits but that
Python `int(line, 2)` accepts: a minus sign followed by 31 ones. -/
def negLine : List Char := '-' :: List.replicate 31 '1'

/-- `L` declares the label `lb`: non-blank, contains a colon, and the
stripped text before the colon is `lb`. -/
def declaresLabel (L lb : List Char) : Prop :=
  stripChars L ≠ [] ∧ L.contains ':' = true ∧ stripChars (splitColon1Label L) = lb

/-! ### Basic facts about the digit-string codec -/

theorem binToNat_acc (s : List Char) :
    ∀ acc : Nat, s.foldl (fun acc c => 2 * acc + charVal c) acc
      = acc * 2 ^ s.length + binToNat s := by
  induction s with
  | nil => intro acc; simp [binToNat]
  | cons c t ih =>
    intro acc
    simp only [List.foldl_cons, List.length_cons, binToNat]
    rw [ih (2 * acc + charVal c), ih (2 * 0 + charVal c)]
    ring

theorem binToNat_append (a b : List Char) :
    binToNat (a ++ b) = binToNat a * 2 ^ b.length + binToNat b := by
  unfold binToNat
  rw [List.foldl_append, binToNat_acc]
  rfl

theorem binToNat_lt (s : List Char) : binToNat s < 2 ^ s.length := by
  induction s with
  | nil => simp [binToNat]
  | cons c t ih =>
    have h : binToNat (c :: t) = charVal c * 2 ^ t.length + binToNat t := by
      have := binToNat_append [c] t
      simpa [binToNat, charVal] using this
    have hc : charVal c ≤ 1 := by unfold charVal; split <;> omega
    have hp : (0:Nat) < 2 ^ t.length := Nat.pos_pow_of_pos _ (by norm_num)
    rw [h, List.length_cons, pow_succ]
    nlinarith [ih]

theorem binToNat_replicate_zero (m : Nat) :
    binToNat (List.replicate m '0') = 0 := by
  induction m with
  | zero => simp [binToNat]
  | succ k ih =>
    have h : List.replicate (k + 1) '0' = ['0'] ++ List.replicate k '0' := rfl
    rw [h, binToNat_append, ih]
    simp [binToNat, charVal]

theorem binToNat_zfill (b : Nat) (s : List Char) :
    binToNat (zfill b s) = binToNat s := by
  unfold zfill
  rw [binToNat_append, binToNat_replicate_zero]
  simp

theorem zfill_length (b : Nat) (s : List Char) (h : s.length ≤ b) :
    (zfill b s).length = b := by
  unfold zfill
  simp [List.length_append]
  omega

theorem binRepAux_val (fuel : Nat) :
    ∀ n : Nat, n ≤ fuel → binToNat (binRepAux fuel n) = n := by
  induction fuel with
  | zero => intro n hn; interval_cases n; simp [binRepAux, binToNat]
  | succ f ih =>
    intro n hn
    unfold binRepAux
    by_cases h0 : n = 0
    · simp [h0, binToNat]
    · simp only [h0, if_false]
      rw [binToNat_append, ih (n / 2) (by omega)]
      have := Nat.div_add_mod n 2
      have hm : n % 2 < 2 := Nat.mod_lt _ (by norm_num)
      by_cases hb : n % 2 = 1 <;> simp [hb, binToNat, charVal] <;> omega

theorem binRepAux_length (fuel : Nat) :
    ∀ n k : Nat, n < 2 ^ k → (binRepAux fuel n).length ≤ k := by
  induction fuel with
  | zero => intro n k _; simp [binRepAux]
  | succ f ih =>
    intro n k hk
    unfold binRepAux
    by_cases h0 : n = 0
    · simp [h0]
    · simp only [h0, if_false, List.length_append, List.length_cons,
        List.length_nil]
      rcases k with _ | k2
      · exfalso
        have : n < 1 := by simpa using hk
        omega
      · have hdiv : n / 2 < 2 ^ k2 := by
          have h2 : n < 2 ^ (k2 + 1) := hk
          rw [pow_succ] at h2
          omega
        have := ih (n / 2) k2 hdiv
        omega

theorem binRep_val (n : Nat) : binToNat (binRep n) = n := by
  unfold binRep
  by_cases h : n = 0
  · simp [h, binToNat, charVal]
  · simp only [h, if_false]
    exact binRepAux_val n n le_rfl

theorem binRep_length (n k : Nat) (h : n < 2 ^ k) (hk : 0 < k) :
    (binRep n).length ≤ k := by
  unfold binRep
  by_cases h0 : n = 0
  · simp [h0]; omega
  · simp only [h0, if_false]
    exact binRepAux_length n n k h


theorem binToNat_take (s : List Char) (k : Nat) (hk : k ≤ s.length) :
    binToNat (s.take k) = binToNat s / 2 ^ (s.length - k) := by
  have hsplit : s = s.take k ++ s.drop k := (List.take_append_drop k s).symm
  have hlen : (s.drop k).length = s.length - k := by simp
  have hval : binToNat s
      = binToNat (s.take k) * 2 ^ (s.length - k) + binToNat (s.drop k) := by
    conv_lhs => rw [hsplit]
    rw [binToNat_append, hlen]
  have hlt : binToNat (s.drop k) < 2 ^ (s.length - k) := by
    have := binToNat_lt (s.drop k)
    rwa [hlen] at this
  have hpos : 0 < 2 ^ (s.length - k) := Nat.pos_pow_of_pos _ (by norm_num)
  rw [hval, Nat.mul_comm (binToNat (s.take k)) (2 ^ (s.length - k)),
    Nat.mul_add_div hpos, Nat.div_eq_of_lt hlt]
  omega

theorem binToNat_drop (s : List Char) (k : Nat) :
    binToNat (s.drop k) = binToNat s % 2 ^ (s.length - k) := by
  by_cases hk : k ≤ s.length
  · have hsplit : s = s.take k ++ s.drop k := (List.take_append_drop k s).symm
    have hlen : (s.drop k).length = s.length - k := by simp
    have hval : binToNat s
        = binToNat (s.take k) * 2 ^ (s.length - k) + binToNat (s.drop k) := by
      conv_lhs => rw [hsplit]
      rw [binToNat_append, hlen]
    have hlt : binToNat (s.drop k) < 2 ^ (s.length - k) := by
      have := binToNat_lt (s.drop k)
      rwa [hlen] at this
    rw [hval, Nat.mul_comm (binToNat (s.take k)) (2 ^ (s.length - k)),
      Nat.mul_add_mod, Nat.mod_eq_of_lt hlt]
  · rw [List.drop_eq_nil_of_le (by omega)]
    have h0 : s.length - k = 0 := by omega
    simp [h0, binToNat, Nat.mod_one]

/-- Value of the Python slice `s[-a:-b]` in terms of the value of `s`:
the bits `a - 1` down to `b` (0-based from the least significant end). -/
theorem pySliceNeg_val (s : List Char) (a b : Nat)
    (hb : b ≤ a) (ha : a ≤ s.length) :
    binToNat (pySliceNeg s a b) = binToNat s % 2 ^ a / 2 ^ b := by
  unfold pySliceNeg
  have hdlen : (s.drop (s.length - a)).length = a := by
    simp
    omega
  rw [binToNat_take _ _ (by omega), binToNat_drop, hdlen]
  have h1 : s.length - (s.length - a) = a := by omega
  have h2 : a - (a - b) = b := by omega
  rw [h1, h2]

theorem pySliceNeg_length (s : List Char) (a b : Nat)
    (hb : b ≤ a) (ha : a ≤ s.length) :
    (pySliceNeg s a b).length = a - b := by
  unfold pySliceNeg
  simp
  omega

/-- Value of the Python single negative index `s[-a]`: bit `a - 1` of the
value of `s`. -/
theorem pyIdxNeg_val (s : List Char) (a : Nat)
    (h1 : 1 ≤ a) (ha : a ≤ s.length) :
    charVal (pyIdxNeg s a) = binToNat s % 2 ^ a / 2 ^ (a - 1) := by
  have hkey := pySliceNeg_val s a (a - 1) (by omega) ha
  have hd : (s.drop (s.length - a)).length = a := by simp; omega
  rcases hddef : s.drop (s.length - a) with _ | ⟨c, t⟩
  · exfalso
    rw [hddef] at hd
    simp at hd
    omega
  · have hone : pySliceNeg s a (a - 1) = [c] := by
      unfold pySliceNeg
      have htk : a - (a - 1) = 1 := by omega
      rw [htk, hddef]
      rfl
    rw [hone] at hkey
    have hidx : pyIdxNeg s a = c := by
      unfold pyIdxNeg
      rw [hddef]
      rfl
    rw [hidx]
    have hsing : binToNat [c] = charVal c := by
      simp [binToNat]
    rw [hsing] at hkey
    exact hkey

/-! ### C1: the 32-bit two's-complement round trip -/

/-- C1: For every integer `v` with `-2^31 ≤ v ≤ 2^31 - 1`,
`Binary_convertor(v, 32)` succeeds, returns a string of exactly 32 binary
digits, and decoding that string as two's complement (interpret as
unsigned, subtract `2^32` when the sign bit is set) returns `v`. -/
theorem c1_encodeSigned_roundtrip (v : Int)
    (h1 : -2 ^ 31 ≤ v) (h2 : v ≤ 2 ^ 31 - 1) :
    ∃ s, Binary_convertor v 32 = some s ∧ s.length = 32 ∧ decodeSigned s = v := by
  have hrange : ¬¬(-2147483648 ≤ v ∧ v ≤ 2147483647) := by
    push_neg
    constructor <;> omega
  refine ⟨zfill 32 (binRep (if v < 0 then ((2 ^ 32 : Int) + v).toNat else v.toNat)),
    ?_, ?_, ?_⟩
  · unfold Binary_convertor
    rw [if_neg hrange]
  · apply zfill_length
    apply binRep_length _ 32 _ (by norm_num)
    by_cases hv : v < 0
    · simp only [hv, if_true]
      omega
    · simp only [hv, if_false]
      omega
  · unfold decodeSigned
    rw [binToNat_zfill, binRep_val]
    by_cases hv : v < 0
    · simp only [hv, if_true]
      rw [if_pos (by omega)]
      omega
    · simp only [hv, if_false]
      rw [if_neg (by omega)]
      omega

/-- Witness for C1 at `v = -5`. -/
theorem c1_witness :
    ∃ s, Binary_convertor (-5) 32 = some s ∧ s.length = 32 ∧ decodeSigned s = -5 :=
  c1_encodeSigned_roundtrip (-5) (by norm_num) (by norm_num)


/-! ### C4: register 0 is an invariant of the execution step -/

theorem getD_set_zero (l : List Int) : (l.set 0 0).getD 0 0 = 0 := by
  cases l <;> simp

/-- C4: if register 0 is zero before an instruction executes (as it is in
the initial state, where all registers are zero), it is zero after every
successfully executed instruction, including instructions that name
register 0 as destination: every success path but the halt early-return
ends in the `registers[0] = 0` reset, and the halt path writes no
register. -/
theorem c4_x0_invariant (s : SimState) (instr : Nat) (s2 : SimState)
    (h0 : s.registers.getD 0 0 = 0)
    (h : execute_instruction s instr = (s2, true)) :
    s2.registers.getD 0 0 = 0 := by
  unfold execute_instruction at h
  repeat' split at h
  all_goals injection h with h1 h2
  all_goals
    first
      | exact absurd h2 (by decide)
      | (subst h1
         first
           | exact h0
           | (simp only [step_add, step_sub, step_slt, step_srl, step_or,
               step_and, step_addi, step_lw, step_jalr, step_sw, step_beq,
               step_bne, step_jal, step_halt, x0_reset]
              exact getD_set_zero _))

/-- Witness for C4: an `addi x0, x0, 7` (write to register 0) from the
initial state leaves register 0 at zero. -/
theorem c4_witness :
    (execute_instruction initState ((7 <<< 20) ||| 0x13)).1.registers.getD 0 0 = 0 := by
  have h : execute_instruction initState ((7 <<< 20) ||| 0x13)
      = ((execute_instruction initState ((7 <<< 20) ||| 0x13)).1, true) := by decide
  exact c4_x0_invariant initState ((7 <<< 20) ||| 0x13) _ (by decide) h

/-! ### C10: the jalr error path is not atomic -/

/-- C10: when a jalr (opcode 0x67) computes a target word index outside
`[0, 32)`, the run aborts as fatal (`false`), but the destination
register `rd` has already been updated to `PC + 1` before the bound
check, so the failing step leaves a mutated machine state behind. -/
theorem c10_jalr_partial_update (s : SimState) (w : Nat)
    (hop : getOpcode w = 0x67) (hout : 32 ≤ jalr_word s w) :
    execute_instruction s w
      = ({ s with registers := s.registers.set (getRd w) (s.pc + 1) }, false) := by
  unfold execute_instruction
  rw [if_neg (by omega), if_neg (by omega), if_neg (by omega), if_pos hop,
    if_pos (Or.inr hout)]
  rfl

/-- Witness for C10: `jalr x1, 2047(x0)` from the initial state targets
word 511, fails, and leaves `x1 = 1`. -/
theorem c10_witness :
    execute_instruction initState ((2047 <<< 20) ||| (1 <<< 7) ||| 0x67)
      = ({ initState with
            registers := initState.registers.set
              (getRd ((2047 <<< 20) ||| (1 <<< 7) ||| 0x67))
              (initState.pc + 1) }, false) :=
  c10_jalr_partial_update initState ((2047 <<< 20) ||| (1 <<< 7) ||| 0x67)
    (by decide) (by decide)

/-! ### C5: load/store addressing -/

/-- C5 counterexample: `lw x1, 5(x0)` (instruction word 5251203) computes
the address 5, which is not a multiple of 4, yet the instruction
*succeeds* — there is no alignment check in the simulator, contrary to
the claim that a misaligned address is fatal.  The address is silently
floor-divided: `rd` receives `memory[1]`. -/
theorem c5_counterexample :
    mask32 (initState.registers.getD (getRs1 5251203) 0 + (imm_i 5251203 : Int)) % 4 ≠ 0
    ∧ execute_instruction initState 5251203 = (step_lw initState 5251203, true) := by
  constructor
  · decide
  · decide

/-- C5 (amended): for lw (opcode 0x03, funct3 = 2) and sw (opcode 0x23,
funct3 = 2) the simulator checks only that
`addr // 4` lies in `[0, 32)` for `addr = (rs1 + imm12) mod 2^32`; an
out-of-bounds word index is fatal and leaves the state unchanged, while
any in-bounds address — aligned or not — succeeds with
`rd = memory[addr // 4]` (lw) resp. `memory[addr // 4] = rs2` (sw).
No multiple-of-4 requirement is enforced. -/
theorem c5_amended_mem_bounds :
    (∀ (s : SimState) (w : Nat), getOpcode w = 0x03 → getFunct3 w = 0x2 →
      (32 ≤ lw_idx s w → execute_instruction s w = (s, false))
      ∧ (lw_idx s w < 32 → execute_instruction s w = (step_lw s w, true)))
    ∧ (∀ (s : SimState) (w : Nat), getOpcode w = 0x23 → getFunct3 w = 0x2 →
      (32 ≤ sw_idx s w → execute_instruction s w = (s, false))
      ∧ (sw_idx s w < 32 → execute_instruction s w = (step_sw s w, true))) := by
  have hnn : ∀ (x : Int), 0 ≤ mask32 x / 4 := by
    intro x
    apply Int.ediv_nonneg _ (by norm_num)
    exact Int.emod_nonneg x (by norm_num)
  constructor
  · intro s w hop hf3
    constructor
    · intro hout
      unfold execute_instruction
      rw [if_neg (by omega), if_neg (by omega), if_pos hop, if_pos hf3,
        if_pos (Or.inr hout)]
    · intro hin
      unfold execute_instruction
      rw [if_neg (by omega), if_neg (by omega), if_pos hop, if_pos hf3,
        if_neg (by push_neg; exact ⟨by have := hnn (s.registers.getD (getRs1 w) 0 + (imm_i w : Int)); unfold lw_idx; omega, by omega⟩)]
  · intro s w hop hf3
    constructor
    · intro hout
      unfold execute_instruction
      rw [if_neg (by omega), if_neg (by omega), if_neg (by omega),
        if_neg (by omega), if_pos hop, if_pos hf3, if_pos (Or.inr hout)]
    · intro hin
      unfold execute_instruction
      rw [if_neg (by omega), if_neg (by omega), if_neg (by omega),
        if_neg (by omega), if_pos hop, if_pos hf3,
        if_neg (by push_neg; exact ⟨by have := hnn (s.registers.getD (getRs1 w) 0 + (imm_s w : Int)); unfold sw_idx; omega, by omega⟩)]

/-- Witness for C5 at `lw x1, 64(x0)` (in-bounds, index 16) and at
`sw x1, 2047(x0)` (index 511, out of bounds, fatal). -/
theorem c5_witness :
    execute_instruction initState ((64 <<< 20) ||| (2 <<< 12) ||| (1 <<< 7) ||| 0x03)
      = (step_lw initState ((64 <<< 20) ||| (2 <<< 12) ||| (1 <<< 7) ||| 0x03), true)
    ∧ execute_instruction initState ((63 <<< 25) ||| (2 <<< 12) ||| (31 <<< 7) ||| 0x23)
      = (initState, false) :=
  ⟨(c5_amended_mem_bounds.1 initState _ (by decide) (by decide)).2 (by decide),
   (c5_amended_mem_bounds.2 initState _ (by decide) (by decide)).1 (by decide)⟩

/-! ### C9: invalid register names -/

theorem reg_add_eq_none (name : List Char) (h : name ∉ canonicalRegNames) :
    reg_add name = none := by
  simp only [canonicalRegNames, List.mem_cons, List.not_mem_nil, or_false,
    not_or] at h
  unfold reg_add
  simp only [h, if_false, or_self]

/-- Every recognised register name encodes to a 5-digit string whose
value is its index, below 32 (checked by enumerating the 33 names). -/
theorem reg_add_mem_spec :
    ∀ r ∈ canonicalRegNames,
      ((reg_add r).getD []).length = 5 ∧ binToNat ((reg_add r).getD []) < 32 := by
  decide

theorem reg_add_field (r b : List Char) (h : reg_add r = some b) :
    b.length = 5 ∧ binToNat b < 32 := by
  by_cases hm : r ∈ canonicalRegNames
  · have := reg_add_mem_spec r hm
    rw [h] at this
    exact this
  · rw [reg_add_eq_none r hm] at h
    cases h

/-- C9: looking up any register name outside the fixed table of 32
canonical names (plus the `fp` alias for `s0`) signals the
invalid-register error (`reg_add` returns `None` after printing the
error), and encoding an instruction with such an operand cannot produce
an encoded line (the `None` poisons the field list: the Python
`s += l.pop()` in `Switch_case` raises; modelled as `none`). -/
theorem c9_invalid_register (name : List Char)
    (h : name ∉ canonicalRegNames) :
    reg_add name = none
    ∧ ∀ (f3 r2 : List Char) (target : Int), b_arm f3 name r2 target = none := by
  have hnone := reg_add_eq_none name h
  refine ⟨hnone, ?_⟩
  intro f3 r2 target
  unfold b_arm
  rw [hnone]

/-- Witness for C9 at the unknown name `"q"`. -/
theorem c9_witness :
    reg_add ['q'] = none ∧ b_arm ['0','0','0'] ['q'] ("zero".toList) 0 = none :=
  ⟨(c9_invalid_register ['q'] (by decide)).1,
   (c9_invalid_register ['q'] (by decide)).2 ['0','0','0'] ("zero".toList) 0⟩

/-! ### Bridges from the bit operators to `/`, `%`, `+`

The simulator decodes with `&`, `>>`, `<<` and `|`; the proofs work in
plain arithmetic. -/

theorem and_mask_one (x : Nat) : x &&& 1 = x % 2 := by
  simpa using Nat.and_pow_two_sub_one_eq_mod x 1

theorem and_mask_seven (x : Nat) : x &&& 7 = x % 8 := by
  simpa using Nat.and_pow_two_sub_one_eq_mod x 3

theorem and_mask_fifteen (x : Nat) : x &&& 15 = x % 16 := by
  simpa using Nat.and_pow_two_sub_one_eq_mod x 4

theorem and_mask_31 (x : Nat) : x &&& 31 = x % 32 := by
  simpa using Nat.and_pow_two_sub_one_eq_mod x 5

theorem and_mask_63 (x : Nat) : x &&& 63 = x % 64 := by
  simpa using Nat.and_pow_two_sub_one_eq_mod x 6

theorem and_mask_127 (x : Nat) : x &&& 127 = x % 128 := by
  simpa using Nat.and_pow_two_sub_one_eq_mod x 7

theorem and_mask_4095 (x : Nat) : x &&& 4095 = x % 4096 := by
  simpa using Nat.and_pow_two_sub_one_eq_mod x 12

theorem shr_seven (x : Nat) : x >>> 7 = x / 128 := by
  rw [Nat.shiftRight_eq_div_pow]

theorem shr_eight (x : Nat) : x >>> 8 = x / 256 := by
  rw [Nat.shiftRight_eq_div_pow]

theorem shr_twelve (x : Nat) : x >>> 12 = x / 4096 := by
  rw [Nat.shiftRight_eq_div_pow]

theorem shr_fifteen (x : Nat) : x >>> 15 = x / 32768 := by
  rw [Nat.shiftRight_eq_div_pow]

theorem shr_twenty (x : Nat) : x >>> 20 = x / 1048576 := by
  rw [Nat.shiftRight_eq_div_pow]

theorem shr_25 (x : Nat) : x >>> 25 = x / 33554432 := by
  rw [Nat.shiftRight_eq_div_pow]

theorem shr_31 (x : Nat) : x >>> 31 = x / 2147483648 := by
  rw [Nat.shiftRight_eq_div_pow]

theorem shl_one (x : Nat) : x <<< 1 = x * 2 := by
  rw [Nat.shiftLeft_eq]

theorem shl_five (x : Nat) : x <<< 5 = x * 32 := by
  rw [Nat.shiftLeft_eq]

theorem shl_eleven (x : Nat) : x <<< 11 = x * 2048 := by
  rw [Nat.shiftLeft_eq]

theorem shl_twelve (x : Nat) : x <<< 12 = x * 4096 := by
  rw [Nat.shiftLeft_eq]

/-- Bitwise or of disjoint parts is addition. -/
theorem or_disjoint (i a b : Nat) (h : b < 2 ^ i) :
    (2 ^ i * a) ||| b = 2 ^ i * a + b :=
  (Nat.mul_add_lt_is_or h a).symm

theorem and_bit_12 (x : Nat) : x &&& 4096 = x / 4096 % 2 * 4096 := by
  have h1 := Nat.and_two_pow x 12
  rw [Nat.testBit_to_div_mod] at h1
  norm_num at h1
  rcases Nat.mod_two_eq_zero_or_one (x / 4096) with hb | hb
  · rw [hb]
    rw [hb] at h1
    simpa using h1
  · rw [hb]
    rw [hb] at h1
    simpa using h1

theorem binToNat_singleton (c : Char) : binToNat [c] = charVal c := by
  simp [binToNat]

/-- The or-combination inside `imm_b` on disjoint bit groups is plain
addition. -/
theorem or_quad (a d b c : Nat) (ha : a < 2) (hd : d < 2) (hb : b < 64)
    (hc : c < 16) :
    a * 4096 ||| d * 2048 ||| b * 32 ||| c * 2
      = a * 4096 + d * 2048 + b * 32 + c * 2 := by
  have o1 : a * 4096 ||| d * 2048 = a * 4096 + d * 2048 := by
    have h := or_disjoint 12 a (d * 2048) (by omega)
    rw [show (2:Nat) ^ 12 = 4096 from by norm_num, Nat.mul_comm 4096 a] at h
    exact h
  have o2 : a * 4096 + d * 2048 ||| b * 32 = a * 4096 + d * 2048 + b * 32 := by
    have h := or_disjoint 11 (a * 2 + d) (b * 32) (by omega)
    rw [show (2:Nat) ^ 11 = 2048 from by norm_num] at h
    have e : 2048 * (a * 2 + d) = a * 4096 + d * 2048 := by ring
    rw [e] at h
    exact h
  have o3 : a * 4096 + d * 2048 + b * 32 ||| c * 2
      = a * 4096 + d * 2048 + b * 32 + c * 2 := by
    have h := or_disjoint 5 (a * 128 + d * 64 + b) (c * 2) (by omega)
    rw [show (2:Nat) ^ 5 = 32 from by norm_num] at h
    have e : 32 * (a * 128 + d * 64 + b) = a * 4096 + d * 2048 + b * 32 := by
      ring
    rw [e] at h
    exact h
  rw [o1, o2, o3]

/-- Value of the assembled 32-digit B-type line in terms of its six
fields. -/
theorem b_word_fields (f3 b1 b2 imm1v imm2v : List Char)
    (hf3 : f3.length = 3) (hb1 : b1.length = 5) (hb2 : b2.length = 5)
    (h1 : imm1v.length = 5) (h2 : imm2v.length = 7) :
    binToNat (emitFields [['1','1','0','0','0','1','1'], imm1v, f3, b1, b2, imm2v])
      = ((((binToNat imm2v * 32 + binToNat b2) * 32 + binToNat b1) * 8
          + binToNat f3) * 32 + binToNat imm1v) * 128 + 99 := by
  have hemit : emitFields [['1','1','0','0','0','1','1'], imm1v, f3, b1, b2, imm2v]
      = ((((imm2v ++ b2) ++ b1) ++ f3) ++ imm1v) ++ ['1','1','0','0','0','1','1'] := rfl
  have hopc : binToNat ['1','1','0','0','0','1','1'] = 99 := by decide
  rw [hemit, binToNat_append, binToNat_append, binToNat_append, binToNat_append,
    binToNat_append, hf3, hb1, hb2, h1, hopc]
  norm_num

/-! ### Unfolding lemmas for the execution loop -/

theorem execute_program_from_stopped (s : SimState) (count : Nat)
    (out : List (List Char)) (hh : s.halted = true) :
    execute_program_from s count out
      = if max_instructions ≤ count then none
        else some (s, out ++ write_memory_dump s) := by
  rw [execute_program_from]
  rw [dif_neg (by rw [hh]; intro hc; exact absurd hc.1 (by decide))]

theorem execute_program_from_budget (s : SimState) (count : Nat)
    (out : List (List Char)) (hcount : max_instructions ≤ count) :
    execute_program_from s count out = none := by
  rw [execute_program_from]
  rw [dif_neg (by intro hc; omega)]
  rw [if_pos hcount]

theorem execute_program_from_running (s : SimState) (count : Nat)
    (out : List (List Char)) (hh : s.halted = false)
    (hcount : count < max_instructions) (hpc : ¬(s.pc < 0 ∨ 32 ≤ s.pc)) :
    execute_program_from s count out
      = match execute_instruction s (toU32 (s.memory.getD s.pc.toNat 0)) with
        | (s2, true) =>
          execute_program_from s2 (count + 1) (out ++ [write_trace_line s])
        | (_, false) => none := by
  rw [execute_program_from]
  rw [dif_pos ⟨hh, hcount⟩, if_neg hpc]

/-! ### C3: the virtual halt -/


/-- C3 counterexample: the claim promises the memory dump "regardless of
how many instructions were executed before" the halt instruction, but
when the halt executes as the 100000th instruction (99999 executed
before it), the flag is set and the PC untouched, yet the
budget-exhaustion check fires after the loop and the run fails with *no*
dump. -/
theorem c3_counterexample :
    execute_instruction haltProgState
        (toU32 (haltProgState.memory.getD haltProgState.pc.toNat 0))
      = (step_halt haltProgState, true)
    ∧ (step_halt haltProgState).halted = true
    ∧ (step_halt haltProgState).pc = haltProgState.pc
    ∧ execute_program_from haltProgState 99999 [] = none := by
  refine ⟨by decide, by decide, by decide, ?_⟩
  rw [execute_program_from_running haltProgState 99999 [] (by decide)
    (by decide) (by decide)]
  have hex : execute_instruction haltProgState
      (toU32 (haltProgState.memory.getD haltProgState.pc.toNat 0))
      = (step_halt haltProgState, true) := by decide
  rw [hex]
  exact execute_program_from_budget _ _ _ (by decide)

/-- C3 (amended): executing a B-type word with funct3 = 0, rs1 = rs2 = 0
and decoded offset 0 sets the halt flag, leaves the PC unchanged, and
ends the run with the trace line followed by the 32-line memory dump —
provided at most 99998 instructions were executed before it (at 99999
prior instructions the halt still sets the flag but the run is reported
as an infinite loop and no dump is written, see the counterexample). -/
theorem c3_amended_halt (s : SimState) (count : Nat) (out : List (List Char))
    (hh : s.halted = false) (hpc : ¬(s.pc < 0 ∨ 32 ≤ s.pc))
    (hop : getOpcode (toU32 (s.memory.getD s.pc.toNat 0)) = 0x63)
    (hf3 : getFunct3 (toU32 (s.memory.getD s.pc.toNat 0)) = 0)
    (hr1 : getRs1 (toU32 (s.memory.getD s.pc.toNat 0)) = 0)
    (hr2 : getRs2 (toU32 (s.memory.getD s.pc.toNat 0)) = 0)
    (hoff : imm_b (toU32 (s.memory.getD s.pc.toNat 0)) = 0)
    (hcount : count ≤ 99998) (hmem : s.memory.length = 32) :
    execute_program_from s count out
      = some (step_halt s,
          out ++ [write_trace_line s] ++ write_memory_dump (step_halt s))
    ∧ (step_halt s).pc = s.pc ∧ (step_halt s).halted = true
    ∧ (write_memory_dump (step_halt s)).length = 32 := by
  have hmax : max_instructions = 100000 := rfl
  have hex : execute_instruction s (toU32 (s.memory.getD s.pc.toNat 0))
      = (step_halt s, true) := by
    unfold execute_instruction
    rw [if_neg (by omega), if_neg (by omega), if_neg (by omega),
      if_neg (by omega), if_neg (by omega), if_pos hop,
      if_pos ⟨hf3, hr1, hr2, hoff⟩]
  refine ⟨?_, rfl, rfl, ?_⟩
  · rw [execute_program_from_running s count out hh (by omega) hpc, hex]
    show execute_program_from (step_halt s) (count + 1) (out ++ [write_trace_line s])
      = _
    rw [execute_program_from_stopped (step_halt s) (count + 1) _ rfl,
      if_neg (by omega)]
  · simp [write_memory_dump, step_halt, hmem]

/-- Witness for C3: running the halt program from the start produces the
halted state and 1 + 32 output lines. -/
theorem c3_witness :
    execute_program_from haltProgState 0 []
      = some (step_halt haltProgState,
          [] ++ [write_trace_line haltProgState]
             ++ write_memory_dump (step_halt haltProgState))
    ∧ (step_halt haltProgState).pc = haltProgState.pc
    ∧ (step_halt haltProgState).halted = true
    ∧ (write_memory_dump (step_halt haltProgState)).length = 32 :=
  c3_amended_halt haltProgState 0 [] (by decide) (by decide) (by decide)
    (by decide) (by decide) (by decide) (by decide) (by decide) (by decide)

/-! ### C7: the loop always terminates, on halt, fatality or budget -/

/-- C7: the execution loop is a total function (its Lean model recurses
structurally on the remaining instruction budget, which is exactly the
Python loop's variant), and: (1) every successful run ends in a halted
state with the 32-word memory dump appended to the trace; (2) reaching
the 100000-instruction budget without halting makes the run fail
(`none`: fatal infinite-loop report, no dump). -/
theorem c7_termination :
    (∀ (s : SimState) (count : Nat) (out : List (List Char)) s2 t,
      execute_program_from s count out = some (s2, t) →
        s2.halted = true ∧ ∃ pre, t = pre ++ write_memory_dump s2)
    ∧ (∀ (s : SimState) (out : List (List Char)),
        s.halted = false → execute_program_from s 100000 out = none) := by
  have hmax : max_instructions = 100000 := rfl
  constructor
  · have main : ∀ (fuel : Nat) (s : SimState) (count : Nat) out s2 t,
        max_instructions - count ≤ fuel →
        execute_program_from s count out = some (s2, t) →
        s2.halted = true ∧ ∃ pre, t = pre ++ write_memory_dump s2 := by
      intro fuel
      induction fuel with
      | zero =>
        intro s count out s2 t hf h
        rw [execute_program_from_budget s count out (by omega)] at h
        cases h
      | succ f ih =>
        intro s count out s2 t hf h
        by_cases hc : s.halted = false ∧ count < max_instructions
        · by_cases hpc : s.pc < 0 ∨ 32 ≤ s.pc
          · rw [execute_program_from] at h
            rw [dif_pos hc, if_pos hpc] at h
            cases h
          · rw [execute_program_from_running s count out hc.1 hc.2 hpc] at h
            rcases hex : execute_instruction s (toU32 (s.memory.getD s.pc.toNat 0))
              with ⟨s3, b⟩
            rw [hex] at h
            cases b
            · dsimp only at h
              cases h
            · dsimp only at h
              exact ih s3 (count + 1) _ s2 t (by omega) h
        · rw [execute_program_from] at h
          rw [dif_neg hc] at h
          by_cases hm : max_instructions ≤ count
          · rw [if_pos hm] at h
            cases h
          · rw [if_neg hm] at h
            injection h with h2
            have hhalt : s.halted = true := by
              rcases Bool.eq_false_or_eq_true s.halted with hb | hb
              · exact hb
              · exact absurd ⟨hb, by omega⟩ hc
            injection h2 with hs ht
            subst hs
            exact ⟨hhalt, ⟨out, ht.symm⟩⟩
    intro s count out s2 t h
    exact main max_instructions s count out s2 t (by omega) h
  · intro s out hh
    exact execute_program_from_budget s 100000 out (by omega)

/-- Witness for C7: the loop entered with the budget already spent fails. -/
theorem c7_witness : execute_program_from initState 100000 [] = none :=
  c7_termination.2 initState [] (by decide)

/-! ### C8: what `load_program` accepts -/


/-- C8 counterexample: loading succeeds on a 32-character line that is
not all `0`/`1` (a signed binary literal), refuting the "only if"
direction of the claim; the word stored is even negative. -/
theorem c8_counterexample :
    negLine.length = 32 ∧ negLine.all isBit = false
    ∧ load_program [negLine]
        = some ((-2147483647 : Int) :: List.replicate 31 0) := by
  refine ⟨by decide, by decide, ?_⟩
  show load_program_aux [negLine] 0 (List.replicate 32 0) = _
  decide

theorem load_program_aux_isSome (lines : List (List Char)) :
    ∀ (i : Nat) (mem : List Int), i ≤ 32 →
    ((load_program_aux lines i mem).isSome = true ↔
      ((∀ l ∈ lines, stripChars l = [] ∨
          ((stripChars l).length = 32 ∧ (pyInt2 (stripChars l)).isSome = true))
       ∧ lines.countP (fun l => !(stripChars l).isEmpty) ≤ 32 - i)) := by
  induction lines with
  | nil =>
    intro i mem hi
    simp [load_program_aux]
  | cons line rest ih =>
    intro i mem hi
    unfold load_program_aux
    by_cases hb : stripChars line = []
    · rw [if_pos hb, ih i mem hi]
      have hcount : (line :: rest).countP (fun l => !(stripChars l).isEmpty)
          = rest.countP (fun l => !(stripChars l).isEmpty) := by
        rw [List.countP_cons]
        simp [hb]
      rw [hcount]
      simp [hb]
    · rw [if_neg hb]
      have hcount : (line :: rest).countP (fun l => !(stripChars l).isEmpty)
          = rest.countP (fun l => !(stripChars l).isEmpty) + 1 := by
        rw [List.countP_cons]
        simp [List.isEmpty_iff, hb]
      by_cases hlen : (stripChars line).length ≠ 32
      · rw [if_pos hlen]
        simp only [Option.isSome_none, Bool.false_eq_true, false_iff, not_and, hcount]
        intro hall
        exact absurd ((hall line (by simp)).resolve_left hb).1 hlen
      · rw [if_neg hlen]
        push_neg at hlen
        by_cases hfull : 32 ≤ i
        · rw [if_pos hfull]
          simp only [Option.isSome_none, Bool.false_eq_true, false_iff, not_and, hcount]
          intro _
          omega
        · rw [if_neg hfull]
          rcases hp : pyInt2 (stripChars line) with _ | v
          · simp only [Option.isSome_none, Bool.false_eq_true, false_iff, not_and, hcount]
            intro hall
            have := ((hall line (by simp)).resolve_left hb).2
            rw [hp] at this
            exact absurd this (by decide)
          · rw [ih (i + 1) (mem.set i v) (by omega)]
            rw [hcount]
            constructor
            · rintro ⟨hall, hc⟩
              refine ⟨?_, by omega⟩
              intro l hl
              rcases List.mem_cons.mp hl with hl2 | hl2
              · subst hl2
                exact Or.inr ⟨hlen, by rw [hp]; rfl⟩
              · exact hall l hl2
            · rintro ⟨hall, hc⟩
              refine ⟨fun l hl => hall l (List.mem_cons_of_mem _ hl), by omega⟩

/-! ### C6: label resolution -/

theorem dict_get_cons (k : List Char) (v : Int) (d : List (List Char × Int))
    (lb : List Char) :
    dict_get ((k, v) :: d) lb = if k = lb then some v else dict_get d lb := by
  unfold dict_get
  rw [List.find?_cons]
  by_cases h : k = lb
  · simp [h]
  · simp [h]


theorem pass1_no_decl (lb : List Char) (lines : List (List Char))
    (hnone : ∀ M ∈ lines, ¬ declaresLabel M lb) :
    ∀ (i : Int) (d : List (List Char × Int)),
      dict_get (pass1 lines i d) lb = dict_get d lb := by
  induction lines with
  | nil => intro i d; rfl
  | cons b rest ih =>
    intro i d
    have hb := hnone b (by simp)
    have hrest : ∀ M ∈ rest, ¬ declaresLabel M lb :=
      fun M hM => hnone M (List.mem_cons_of_mem _ hM)
    unfold pass1
    by_cases hblank : stripChars b = []
    · rw [if_pos hblank]
      exact ih hrest i d
    · rw [if_neg hblank]
      by_cases hcol : b.contains ':'
      · rw [if_pos hcol, ih hrest (i + 1) _, dict_get_cons]
        rw [if_neg (fun heq => hb ⟨hblank, hcol, heq⟩)]
      · rw [if_neg hcol]
        exact ih hrest (i + 1) d

theorem pass1_lookup (lb L : List Char) (post : List (List Char))
    (hL : declaresLabel L lb)
    (hpost : ∀ M ∈ post, ¬ declaresLabel M lb) :
    ∀ (pre : List (List Char)) (i : Int) (d : List (List Char × Int)),
      dict_get (pass1 (pre ++ L :: post) i d) lb
        = some (i + 1 + (pre.countP (fun l => !(stripChars l).isEmpty) : Int)) := by
  intro pre
  induction pre with
  | nil =>
    intro i d
    rw [List.nil_append]
    unfold pass1
    rw [if_neg hL.1, if_pos hL.2.1, pass1_no_decl lb post hpost, dict_get_cons,
      if_pos hL.2.2]
    simp
  | cons b pre2 ih =>
    intro i d
    rw [List.cons_append]
    unfold pass1
    by_cases hblank : stripChars b = []
    · rw [if_pos hblank, ih i d]
      have : (b :: pre2).countP (fun l => !(stripChars l).isEmpty)
          = pre2.countP (fun l => !(stripChars l).isEmpty) := by
        rw [List.countP_cons]
        simp [hblank]
      rw [this]
    · have hcnt : (b :: pre2).countP (fun l => !(stripChars l).isEmpty)
          = pre2.countP (fun l => !(stripChars l).isEmpty) + 1 := by
        rw [List.countP_cons]
        simp [List.isEmpty_iff, hblank]
      rw [if_neg hblank]
      by_cases hcol : b.contains ':'
      · rw [if_pos hcol, ih (i + 1) _, hcnt]
        congr 1
        push_cast
        ring
      · rw [if_neg hcol, ih (i + 1) d, hcnt]
        congr 1
        push_cast
        ring

/-- C6: when a branch/jump operand is not a Python int literal, the value
handed to the immediate encoder is `(labelIndex - currentLineIndex) * 4`,
where `labelIndex` is the index recorded by the first pass for that
label: the zero-based count of the *non-blank* lines before the declaring
line (blank lines are skipped and never receive an index), last
declaration winning.  The second conjunct pushes this through the whole
of `b_type`. -/
theorem c6_label_offset (pre post : List (List Char)) (L tok : List Char)
    (i : Int)
    (hnb : stripChars L ≠ []) (hcol : L.contains ':' = true)
    (hlbl : stripChars (splitColon1Label L) = tok)
    (hpost : ∀ M ∈ post, ¬ declaresLabel M tok)
    (hnotint : pyIntLit tok = none) :
    resolve_target (label_dict (pre ++ L :: post)) tok i
      = some (((pre.countP (fun l => !(stripChars l).isEmpty) : Int) - i) * 4)
    ∧ ∀ (mn r1 r2 f3 : List Char),
        branch_funct3 mn = some f3 →
        b_type [mn, r1, r2, tok] i (label_dict (pre ++ L :: post))
          = b_arm f3 r1 r2
              (((pre.countP (fun l => !(stripChars l).isEmpty) : Int) - i) * 4) := by
  have hget : dict_get (label_dict (pre ++ L :: post)) tok
      = some ((pre.countP (fun l => !(stripChars l).isEmpty) : Int)) := by
    unfold label_dict
    rw [pass1_lookup tok L post ⟨hnb, hcol, hlbl⟩ hpost pre (-1) []]
    congr 1
    ring
  have hres : resolve_target (label_dict (pre ++ L :: post)) tok i
      = some (((pre.countP (fun l => !(stripChars l).isEmpty) : Int) - i) * 4) := by
    unfold resolve_target
    rw [hnotint, hget]
  refine ⟨hres, ?_⟩
  intro mn r1 r2 f3 hf3
  unfold b_type
  dsimp only
  rw [hf3, hres]

/-- Witness for C6: the label `loop` on the second non-blank line (index
1), referenced from line index 2, resolves to `(1 - 2) * 4 = -4`, also
through `b_type` for a `beq`. -/
theorem c6_witness :
    resolve_target
        (label_dict ["addi a0, zero, 5".toList, "".toList,
          "loop: add a0, a0, a0".toList])
        ("loop".toList) 2
      = some ((((["addi a0, zero, 5".toList, "".toList] : List (List Char)).countP
            (fun l => !(stripChars l).isEmpty) : Int) - 2) * 4)
    ∧ b_type ["beq".toList, "zero".toList, "zero".toList, "loop".toList] 2
        (label_dict ["addi a0, zero, 5".toList, "".toList,
          "loop: add a0, a0, a0".toList])
      = b_arm ['0','0','0'] ("zero".toList) ("zero".toList)
          ((((["addi a0, zero, 5".toList, "".toList] : List (List Char)).countP
            (fun l => !(stripChars l).isEmpty) : Int) - 2) * 4) := by
  have h := c6_label_offset ["addi a0, zero, 5".toList, "".toList]
    [] ("loop: add a0, a0, a0".toList) ("loop".toList) 2
    (by decide) (by decide) (by decide) (by intro M hM; cases hM) (by decide)
  exact ⟨h.1, h.2 ("beq".toList) ("zero".toList) ("zero".toList)
    ['0','0','0'] (by decide)⟩

/-! ### C2: the B-format round trip -/

/-- Pure arithmetic: extracting each field back out of the assembled
B-type word value. -/
theorem b_word_extract (I2 B2 B1 F3 I1 : Nat)
    (hi2 : I2 < 128) (hb2 : B2 < 32) (hb1 : B1 < 32) (hf : F3 < 8)
    (hi1 : I1 < 32) :
    ((((I2 * 32 + B2) * 32 + B1) * 8 + F3) * 32 + I1) * 128 + 99 < 4294967296
    ∧ (((((I2 * 32 + B2) * 32 + B1) * 8 + F3) * 32 + I1) * 128 + 99) % 128 = 99
    ∧ (((((I2 * 32 + B2) * 32 + B1) * 8 + F3) * 32 + I1) * 128 + 99) / 4096 % 8 = F3
    ∧ (((((I2 * 32 + B2) * 32 + B1) * 8 + F3) * 32 + I1) * 128 + 99) / 32768 % 32 = B1
    ∧ (((((I2 * 32 + B2) * 32 + B1) * 8 + F3) * 32 + I1) * 128 + 99) / 1048576 % 32 = B2
    ∧ (((((I2 * 32 + B2) * 32 + B1) * 8 + F3) * 32 + I1) * 128 + 99) / 2147483648 % 2 = I2 / 64
    ∧ (((((I2 * 32 + B2) * 32 + B1) * 8 + F3) * 32 + I1) * 128 + 99) / 33554432 % 64 = I2 % 64
    ∧ (((((I2 * 32 + B2) * 32 + B1) * 8 + F3) * 32 + I1) * 128 + 99) / 256 % 16 = I1 / 2
    ∧ (((((I2 * 32 + B2) * 32 + B1) * 8 + F3) * 32 + I1) * 128 + 99) / 128 % 2 = I1 % 2 := by
  omega

/-- Evaluating `imm_b` on a word whose four immediate bit groups carry
the corresponding bits of a pattern `n` that is either small (a
nonnegative offset) or within 2048 of `2^32` (a negative offset's
pattern): the reconstruction returns `n` itself when `n` is even. -/
theorem imm_b_eval (W n : Nat)
    (e1 : W >>> 31 &&& 1 = n % 8192 / 4096)
    (e2 : W >>> 25 &&& 63 = n % 2048 / 32)
    (e3 : W >>> 8 &&& 15 = n % 32 / 2)
    (e4 : W >>> 7 &&& 1 = n % 4096 / 2048)
    (hrange : n < 2048 ∨ (4294965248 ≤ n ∧ n < 4294967296))
    (heven : n % 2 = 0) :
    imm_b W = n := by
  unfold imm_b
  dsimp only
  rw [e1, e2, e3, e4, shl_twelve, shl_eleven, shl_five, shl_one,
    or_quad (n % 8192 / 4096) (n % 4096 / 2048) (n % 2048 / 32) (n % 32 / 2)
      (by omega) (by omega) (by omega) (by omega),
    and_bit_12]
  rcases hrange with hr | hr
  · rw [if_neg (by omega)]
    omega
  · rw [if_pos (by omega)]
    have hval_lt : n % 8192 / 4096 * 4096 + n % 4096 / 2048 * 2048
        + n % 2048 / 32 * 32 + n % 32 / 2 * 2 < 2 ^ 13 := by omega
    rw [Nat.or_comm,
      show (4294959104 : Nat) = 2 ^ 13 * 524287 from by norm_num,
      or_disjoint 13 524287 _ hval_lt]
    omega

/-- C2 counterexample: encoding `beq zero, zero, 1` (offset 1, inside the
claimed range `-2048..2047`) and decoding with the simulator's `imm_b`
does *not* recover the offset: bit 0 of the offset is never encoded
(`imm[4:1]` starts at bit 1), so the decoder returns 0, not 1. -/
theorem c2_counterexample :
    ∃ ans, b_arm ['0','0','0'] ("zero".toList) ("zero".toList) 1 = some ans
      ∧ imm_b (binToNat (emitFields ans)) ≠ 1 := by
  refine ⟨[['1','1','0','0','0','1','1'], ['0','0','0','0','0'], ['0','0','0'],
    ['0','0','0','0','0'], ['0','0','0','0','0'], ['0','0','0','0','0','0','0']],
    by decide, by decide⟩

set_option maxHeartbeats 1000000 in
/-- C2 (amended): for the B format, for every pair of valid register
operands, any funct3 and every *even* offset in `-2048..2047`, decoding
the assembled 32-digit word recovers opcode 0x63, the funct3 bits, and
rs1/rs2 exactly, and the simulator's `imm_b` reconstruction returns the
offset's 32-bit two's-complement pattern `off mod 2^32` — equal to the
offset itself exactly when the offset is nonnegative (Python's
`val |= 0xffffe000` produces the unsigned pattern, not a negative int).
Odd offsets lose their lowest bit (see the counterexample). -/
theorem c2_amended_b_roundtrip (r1 r2 b1 b2 f3 : List Char) (off : Int)
    (h1 : reg_add r1 = some b1) (h2 : reg_add r2 = some b2)
    (hf3 : f3.length = 3)
    (hlo : -2048 ≤ off) (hhi : off ≤ 2047) (hev : off % 2 = 0) :
    ∃ ans, b_arm f3 r1 r2 off = some ans
      ∧ getOpcode (binToNat (emitFields ans)) = 0x63
      ∧ getFunct3 (binToNat (emitFields ans)) = binToNat f3
      ∧ getRs1 (binToNat (emitFields ans)) = binToNat b1
      ∧ getRs2 (binToNat (emitFields ans)) = binToNat b2
      ∧ imm_b (binToNat (emitFields ans)) = (off % 4294967296).toNat := by
  -- the 32-bit two's-complement pattern of the offset
  have hBC : Binary_convertor off 32
      = some (zfill 32 (binRep
          (if off < 0 then ((2 ^ 32 : Int) + off).toNat else off.toNat))) := by
    unfold Binary_convertor
    rw [if_neg (by push_neg; constructor <;> omega)]
  set n : Nat := if off < 0 then ((2 ^ 32 : Int) + off).toNat else off.toNat
    with hndef
  have hn_int : (n : Int) = off % 4294967296 := by
    rw [hndef]
    by_cases hv : off < 0
    · rw [if_pos hv, show ((2 : Int) ^ 32) = 4294967296 from by norm_num]
      omega
    · rw [if_neg hv]
      omega
  have hn_lt : n < 4294967296 := by omega
  have hresult : (off % 4294967296).toNat = n := by omega
  have hrange : n < 2048 ∨ (4294965248 ≤ n ∧ n < 4294967296) := by omega
  have hneven : n % 2 = 0 := by omega
  set binr := zfill 32 (binRep n) with hbinr
  have hblen : binr.length = 32 :=
    zfill_length 32 _ (binRep_length n 32 (by norm_num; omega) (by norm_num))
  have hbval : binToNat binr = n := by
    rw [hbinr, binToNat_zfill, binRep_val]
  -- the encoder output
  have hb_arm : b_arm f3 r1 r2 off
      = some [['1','1','0','0','0','1','1'],
          pySliceNeg binr 5 1 ++ [pyIdxNeg binr 12], f3, b1, b2,
          pyIdxNeg binr 13 :: pySliceNeg binr 11 5] := by
    unfold b_arm
    rw [h1, h2, hBC]
  -- values of the two scrambled immediate fields
  have hsl51 : binToNat (pySliceNeg binr 5 1) = n % 32 / 2 := by
    have h := pySliceNeg_val binr 5 1 (by omega) (by omega)
    rw [hbval] at h
    norm_num at h
    exact h
  have hidx12 : charVal (pyIdxNeg binr 12) = n % 4096 / 2048 := by
    have h := pyIdxNeg_val binr 12 (by omega) (by omega)
    rw [hbval] at h
    norm_num at h
    exact h
  have hidx13 : charVal (pyIdxNeg binr 13) = n % 8192 / 4096 := by
    have h := pyIdxNeg_val binr 13 (by omega) (by omega)
    rw [hbval] at h
    norm_num at h
    exact h
  have hsl115 : binToNat (pySliceNeg binr 11 5) = n % 2048 / 32 := by
    have h := pySliceNeg_val binr 11 5 (by omega) (by omega)
    rw [hbval] at h
    norm_num at h
    exact h
  have hI1 : binToNat (pySliceNeg binr 5 1 ++ [pyIdxNeg binr 12])
      = (n % 32 / 2) * 2 + n % 4096 / 2048 := by
    rw [binToNat_append, binToNat_singleton, hsl51, hidx12]
    norm_num
  have hI1len : (pySliceNeg binr 5 1 ++ [pyIdxNeg binr 12]).length = 5 := by
    rw [List.length_append, pySliceNeg_length binr 5 1 (by omega) (by omega)]
    rfl
  have hI2 : binToNat (pyIdxNeg binr 13 :: pySliceNeg binr 11 5)
      = (n % 8192 / 4096) * 64 + n % 2048 / 32 := by
    have hc : pyIdxNeg binr 13 :: pySliceNeg binr 11 5
        = [pyIdxNeg binr 13] ++ pySliceNeg binr 11 5 := rfl
    rw [hc, binToNat_append, binToNat_singleton, hidx13, hsl115,
      pySliceNeg_length binr 11 5 (by omega) (by omega)]
    norm_num
  have hI2len : (pyIdxNeg binr 13 :: pySliceNeg binr 11 5).length = 7 := by
    rw [List.length_cons, pySliceNeg_length binr 11 5 (by omega) (by omega)]
  -- register field facts
  obtain ⟨hb1len, hb1lt⟩ := reg_add_field r1 b1 h1
  obtain ⟨hb2len, hb2lt⟩ := reg_add_field r2 b2 h2
  have hf3lt : binToNat f3 < 8 := by
    have h := binToNat_lt f3
    rw [hf3] at h
    norm_num at h
    exact h
  -- bounds of the immediate fields
  have hI1lt : binToNat (pySliceNeg binr 5 1 ++ [pyIdxNeg binr 12]) < 32 := by
    have h := binToNat_lt (pySliceNeg binr 5 1 ++ [pyIdxNeg binr 12])
    rw [hI1len] at h
    norm_num at h
    exact h
  have hI2lt : binToNat (pyIdxNeg binr 13 :: pySliceNeg binr 11 5) < 128 := by
    have h := binToNat_lt (pyIdxNeg binr 13 :: pySliceNeg binr 11 5)
    rw [hI2len] at h
    norm_num at h
    exact h
  -- the assembled word and its field extractions
  have hW := b_word_fields f3 b1 b2 _ _ hf3 hb1len hb2len hI1len hI2len
  obtain ⟨hx0, hx1, hx2, hx3, hx4, hx5, hx6, hx7, hx8⟩ :=
    b_word_extract (binToNat (pyIdxNeg binr 13 :: pySliceNeg binr 11 5))
      (binToNat b2) (binToNat b1) (binToNat f3)
      (binToNat (pySliceNeg binr 5 1 ++ [pyIdxNeg binr 12]))
      hI2lt hb2lt hb1lt hf3lt hI1lt
  set W := binToNat (emitFields [['1','1','0','0','0','1','1'],
    pySliceNeg binr 5 1 ++ [pyIdxNeg binr 12], f3, b1, b2,
    pyIdxNeg binr 13 :: pySliceNeg binr 11 5]) with hWdef
  rw [← hW] at hx1 hx2 hx3 hx4 hx5 hx6 hx7 hx8
  -- drop the two polynomial-shaped facts: they are no longer needed and
  -- every remaining arithmetic hypothesis is small
  clear hx0 hW
  -- the two immediate halves, seen through hI1/hI2
  have hdiv2 : binToNat (pyIdxNeg binr 13 :: pySliceNeg binr 11 5) / 64
      = n % 8192 / 4096 := by
    rw [hI2]
    omega
  have hmod2 : binToNat (pyIdxNeg binr 13 :: pySliceNeg binr 11 5) % 64
      = n % 2048 / 32 := by
    rw [hI2]
    omega
  have hdiv1 : binToNat (pySliceNeg binr 5 1 ++ [pyIdxNeg binr 12]) / 2
      = n % 32 / 2 := by
    rw [hI1]
    omega
  have hmod1 : binToNat (pySliceNeg binr 5 1 ++ [pyIdxNeg binr 12]) % 2
      = n % 4096 / 2048 := by
    rw [hI1]
    omega
  rw [hdiv2] at hx5
  rw [hmod2] at hx6
  rw [hdiv1] at hx7
  rw [hmod1] at hx8
  refine ⟨_, hb_arm, ?_, ?_, ?_, ?_, ?_⟩
  · show getOpcode W = 0x63
    unfold getOpcode
    rw [and_mask_127, hx1]
  · show getFunct3 W = binToNat f3
    unfold getFunct3
    rw [shr_twelve, and_mask_seven, hx2]
  · show getRs1 W = binToNat b1
    unfold getRs1
    rw [shr_fifteen, and_mask_31, hx3]
  · show getRs2 W = binToNat b2
    unfold getRs2
    rw [shr_twenty, and_mask_31, hx4]
  · show imm_b W = (off % 4294967296).toNat
    have e1 : W >>> 31 &&& 1 = n % 8192 / 4096 := by
      rw [shr_31, and_mask_one, hx5]
    have e2 : W >>> 25 &&& 63 = n % 2048 / 32 := by
      rw [shr_25, and_mask_63, hx6]
    have e3 : W >>> 8 &&& 15 = n % 32 / 2 := by
      rw [shr_eight, and_mask_fifteen, hx7]
    have e4 : W >>> 7 &&& 1 = n % 4096 / 2048 := by
      rw [shr_seven, and_mask_one, hx8]
    rw [hresult]
    exact imm_b_eval W n e1 e2 e3 e4 hrange hneven

/-- Witness for C2 at `beq t0, a7, -4`. -/
theorem c2_witness :
    ∃ ans, b_arm ['0','0','0'] ("t0".toList) ("a7".toList) (-4) = some ans
      ∧ getOpcode (binToNat (emitFields ans)) = 0x63
      ∧ getFunct3 (binToNat (emitFields ans)) = binToNat ['0','0','0']
      ∧ getRs1 (binToNat (emitFields ans)) = binToNat ['0','0','1','0','1']
      ∧ getRs2 (binToNat (emitFields ans)) = binToNat ['1','0','0','0','1']
      ∧ imm_b (binToNat (emitFields ans)) = ((-4 : Int) % 4294967296).toNat :=
  c2_amended_b_roundtrip ("t0".toList) ("a7".toList)
    ['0','0','1','0','1'] ['1','0','0','0','1'] ['0','0','0'] (-4)
    (by decide) (by decide) (by decide) (by decide) (by decide) (by decide)

/-- C8 (amended): loading a binary image succeeds iff there are at most
32 non-blank lines and every non-blank line, after stripping, is exactly
32 characters long and is accepted by Python's `int(line, 2)` — which
accepts every 32-character `0`/`1` string, but also signed, `0b`-prefixed
and underscore-separated binary literals (see the counterexample), so
"32 characters of 0/1" is sufficient but not necessary. -/
theorem c8_amended_load_iff (lines : List (List Char)) :
    (load_program lines).isSome = true ↔
      ((∀ l ∈ lines, stripChars l = [] ∨
          ((stripChars l).length = 32 ∧ (pyInt2 (stripChars l)).isSome = true))
       ∧ lines.countP (fun l => !(stripChars l).isEmpty) ≤ 32) :=
  load_program_aux_isSome lines 0 (List.replicate 32 0) (by omega)

end CO
